import Mathlib

/-!
# Verification of the hgdb-debugger adapter against its specification

Shallow embedding of the hgdb-debugger repository (vscode DAP adapter in
`src/vscode/src/hgdbRuntime.ts` / `src/vscode/src/hgdbDebug.ts`, and the
terminal console in `src/console/hgdb`).  Every definition is translated
from the source; JavaScript 32-bit bitwise semantics and Python dict /
string semantics are modelled explicitly where the source relies on them.
-/

set_option linter.unusedVariables false

namespace Hgdb

/-! ## Python / JavaScript string and number helpers

`str.isdigit` / `int(...)` / `str(...)` as the console uses them on ASCII
decimal strings, and the character-level renderings of `str.replace` /
`str.split` for single-character patterns (the only patterns the console
uses: `"["`, `"]"`, `"."`, `"="`, `":"`). -/

/-- One decimal digit as a character (`str(i)` for `i < 10`). -/
def digitChar : Nat → Char
  | 0 => '0' | 1 => '1' | 2 => '2' | 3 => '3' | 4 => '4'
  | 5 => '5' | 6 => '6' | 7 => '7' | 8 => '8' | _ => '9'

/-- Value of a decimal digit character (`'0'` ↦ 0 …). -/
def digitVal (c : Char) : Nat := c.toNat - 48

/-- Decimal digits of `n`, most significant first, with fuel (structural
recursion keeps the definition kernel-reducible; `natToDigits` supplies
always-sufficient fuel). -/
def natToDigitsAux : Nat → Nat → List Char
  | 0, _ => []
  | fuel + 1, n =>
    if n < 10 then [digitChar n]
    else natToDigitsAux fuel (n / 10) ++ [digitChar (n % 10)]

/-- Decimal digits of `n`, most significant first (`str(n)` for a `Nat`). -/
def natToDigits (n : Nat) : List Char := natToDigitsAux (n + 1) n

/-- Python `str(n)` for a natural number. -/
def natRepr (n : Nat) : String := ⟨natToDigits n⟩

/-- Is `c` an ASCII decimal digit? -/
def isDigitChar (c : Char) : Bool := '0' ≤ c && c ≤ '9'

/-- Python `s.isdigit()` (restricted to ASCII): non-empty and all digits. -/
def pyIsDigit (s : String) : Bool := !s.data.isEmpty && s.data.all isDigitChar

/-- Python `int(s)` on a digit string, at the character level. -/
def pyIntChars (cs : List Char) : Nat := cs.foldl (fun a c => a * 10 + digitVal c) 0

/-- Python `int(s)` on a digit string. -/
def pyInt (s : String) : Nat := pyIntChars s.data

/-! ## JavaScript 32-bit bitwise semantics

JS `<<`, `>>`, `|`, `&` convert their operands with `ToInt32` (wrap-around
modulo 2^32, reinterpreted signed) before operating; `>>` is the
sign-extending shift (floor division).  `src/vscode/src/hgdbRuntime.ts`
relies on these operators in `get_frame_id` / `get_instance_frame_id`. -/

/-- ECMAScript `ToUint32` of an integral number. -/
def toUint32 (n : Int) : Nat := (n % (2 ^ 32 : Int)).toNat

/-- ECMAScript `ToInt32` of an integral number. -/
def toInt32 (n : Int) : Int :=
  let m : Int := n % (2 ^ 32 : Int)
  if m < 2 ^ 31 then m else m - 2 ^ 32

/-- JS `a << b` (b a small literal): `ToInt32`, shift, wrap to int32. -/
def jsShl (a : Int) (b : Nat) : Int := toInt32 (toInt32 a * 2 ^ (b % 32))

/-- JS `a >> b`: sign-extending (arithmetic) right shift = floor division. -/
def jsSar (a : Int) (b : Nat) : Int := Int.fdiv (toInt32 a) (2 ^ (b % 32))

/-- JS `a | b` on int32 values. -/
def jsOr (a b : Int) : Int := toInt32 (Int.ofNat (Nat.lor (toUint32 a) (toUint32 b)))

/-- JS `a & b` on int32 values. -/
def jsAnd (a b : Int) : Int := toInt32 (Int.ofNat (Nat.land (toUint32 a) (toUint32 b)))

/-- `HGDBRuntime.get_frame_id`: `return instance_id << 13 | stack_index;`
(hgdbRuntime.ts, lines 269–278). -/
def get_frame_id (instance_id stack_index : Int) : Int :=
  jsOr (jsShl instance_id 13) stack_index

/-- `HGDBRuntime.get_instance_frame_id`: `instance_id = frame_id >> 13;
stack_index = frame_id & ((1 << 13) - 1);` (hgdbRuntime.ts, lines 280–284). -/
def get_instance_frame_id (frame_id : Int) : Int × Int :=
  (jsSar frame_id 13, jsAnd frame_id 8191)

/-! ## Character-level models of the Python string methods the console uses

The console only ever calls `str.replace` / `str.split` with the
single-character patterns `"["`, `"]"`, `"."`, `"="`, for which they are
a per-character map / delete / split. -/

/-- `s.replace(a, b)` for one-character `a`, `b`. -/
def replaceChar (a b : Char) (s : String) : String :=
  ⟨s.data.map (fun c => if c = a then b else c)⟩

/-- `s.replace(a, "")` for a one-character `a`. -/
def dropChar (a : Char) (s : String) : String :=
  ⟨s.data.filter (fun c => c ≠ a)⟩

/-- `s.split(sep)` for a one-character separator: keeps empty pieces,
exactly like Python's `str.split` with an explicit separator. -/
def splitCharAux (sep : Char) : List Char → List Char → List String
  | [], acc => [⟨acc.reverse⟩]
  | c :: cs, acc =>
    if c = sep then ⟨acc.reverse⟩ :: splitCharAux sep cs []
    else splitCharAux sep cs (c :: acc)

def splitChar (sep : Char) (s : String) : List String := splitCharAux sep s.data []

/-- ASCII whitespace, as Python `str.strip()` / no-argument `str.split()`
treat it (restricted to the characters that can appear in console input). -/
def isSpaceChar (c : Char) : Bool :=
  c = ' ' || c = '\t' || c = '\n' || c = '\r'

/-- Python `s.strip()`. -/
def pyStrip (s : String) : String :=
  ⟨((s.data.dropWhile isSpaceChar).reverse.dropWhile isSpaceChar).reverse⟩

/-- `len(s.split())`: the number of whitespace-separated words of `s`
(no-argument `split` drops empty pieces). -/
def wordCount : List Char → Bool → Nat
  | [], _ => 0
  | c :: cs, inWord =>
    if isSpaceChar c then wordCount cs false
    else (if inWord then 0 else 1) + wordCount cs true

def pyWordCount (s : String) : Nat := wordCount s.data false

/-! ## Python values: the console's variable trees

`parse_local` (src/console/hgdb, lines 617–637) builds a nested structure
of dicts, lists, ints and strings.  `PyVal` is that value space (`none`
is Python's `None`, the placeholder `fix_local_str_num` fills arrays
with).  Mutual inductives keep every recursion structural. -/

mutual
inductive PyVal where
  | str (s : String)
  | int (n : Nat)
  | none
  | list (xs : PyList)
  | dict (entries : PyDict)
  deriving DecidableEq
inductive PyList where
  | nil
  | cons (v : PyVal) (rest : PyList)
  deriving DecidableEq
inductive PyDict where
  | nil
  | cons (k : String) (v : PyVal) (rest : PyDict)
  deriving DecidableEq
end

/-- `len(d)` for a Python dict. -/
def PyDict.length : PyDict → Nat
  | .nil => 0
  | .cons _ _ rest => 1 + rest.length

/-- `k in d` for a Python dict (membership is key membership). -/
def PyDict.hasKey : PyDict → String → Bool
  | .nil, _ => false
  | .cons k' _ rest, k => k' = k || rest.hasKey k

/-- `d[k]` lookup.  A Python dict holds each key once, so first match. -/
def PyDict.get? : PyDict → String → Option PyVal
  | .nil, _ => Option.none
  | .cons k' v rest, k => if k' = k then some v else rest.get? k

/-- `d[k] = v`: replace in place if the key exists, else append
(Python dicts preserve insertion order). -/
def PyDict.set : PyDict → String → PyVal → PyDict
  | .nil, k, v => .cons k v .nil
  | .cons k' v' rest, k, v =>
    if k' = k then .cons k v rest else .cons k' v' (rest.set k v)

def PyList.length : PyList → Nat
  | .nil => 0
  | .cons _ rest => 1 + rest.length

/-- `xs[i] = v` (out-of-range writes cannot occur where this is used:
`fix_local_str_num` only writes indices its guard has seen as keys). -/
def PyList.set : PyList → Nat → PyVal → PyList
  | .nil, _, _ => .nil
  | .cons _ rest, 0, v => .cons v rest
  | .cons w rest, n + 1, v => .cons w (rest.set n v)

/-- `xs[i]` (only evaluated in-range where it is used). -/
def PyList.get? : PyList → Nat → Option PyVal
  | .nil, _ => Option.none
  | .cons v _, 0 => some v
  | .cons _ rest, n + 1 => rest.get? n

/-- `[None for _ in range(n)]`. -/
def PyList.replicateNone : Nat → PyList
  | 0 => .nil
  | n + 1 => .cons PyVal.none (replicateNone n)

/-- A Lean list of values as a `PyList` (statement-side convenience). -/
def PyList.ofList : List PyVal → PyList
  | [] => .nil
  | v :: rest => .cons v (ofList rest)

/-- The guard of `fix_local_str_num`'s array pass: `str(i) in keys` for
every `i in range(len(target))` (src/console/hgdb, lines 603–607). -/
def allCanonical (d : PyDict) : Bool :=
  (List.range d.length).all (fun i => d.hasKey (natRepr i))

/-! `fix_local_str_num` (src/console/hgdb, lines 597–614): leaves that are
digit strings become ints; a dict whose keys are exactly `"0"… "n-1"` becomes
a list built by `result[int(key)] = fix(value)` over its entries, starting from
`[None]*n`; any other dict keeps its shape with fixed values.  A non-dict,
non-digit-string target is returned unchanged (lists are never recursed into:
the first pass only ever produced dicts and leaves). -/
mutual
def fix_local_str_num : PyVal → PyVal
  | .str s => if pyIsDigit s then .int (pyInt s) else .str s
  | .int n => .int n
  | .none => .none
  | .list xs => .list xs
  | .dict d =>
    if allCanonical d then .list (placeFix (PyList.replicateNone d.length) d)
    else .dict (fixEntries d)
  termination_by structural v => v
def fixEntries : PyDict → PyDict
  | .nil => .nil
  | .cons k v rest => .cons k (fix_local_str_num v) (fixEntries rest)
  termination_by structural d => d
def placeFix (acc : PyList) : PyDict → PyList
  | .nil => acc
  | .cons k v rest => placeFix (acc.set (pyInt k) (fix_local_str_num v)) rest
  termination_by structural d => d
end

/-- The keys of a dict, in insertion order (`target.keys()`). -/
def keysOf : PyDict → List String
  | .nil => []
  | .cons k _ rest => k :: keysOf rest

/-- The value of the last entry of `d` whose key parses to the index `j` —
the value that survives at position `j` after the write loop
`for key, value in target.items(): result[int(key)] = fix(value)`
(last write wins).  Proof-side characterization of `placeFix`. -/
def findLastVal : PyDict → Nat → Option PyVal
  | .nil, _ => Option.none
  | .cons k v rest, j =>
    match findLastVal rest j with
    | some w => some w
    | Option.none => if pyInt k = j then some v else Option.none

/-- `name.replace("[", ".").replace("]", "")` (src/console/hgdb, line 622). -/
def normalizeName (name : String) : String :=
  dropChar ']' (replaceChar '[' '.' name)

/-- The walk of `parse_local`'s first pass: create intermediate dicts along
`tokens`, then assign the leaf.  Walking into an existing non-dict value
raises `TypeError` in Python; modelled as returning the tree unchanged
(never reached on the flat maps the debug server sends). -/
def insertPath : PyVal → List String → PyVal → PyVal
  | .dict d, [last], v => .dict (d.set last v)
  | .dict d, tok :: rest, v =>
    let sub := match d.get? tok with
      | some s => s
      | Option.none => .dict .nil
    .dict (d.set tok (insertPath sub rest v))
  | t, _, _ => t

/-- First pass of `parse_local` (src/console/hgdb, lines 618–633): normalize
each name, split on `"."`; a one-token name stores the raw string value; a
nested name walks/creates dicts and stores the digit-coerced leaf. -/
def parse_local_tree (local_vars : List (String × String)) : PyVal :=
  local_vars.foldl (fun acc nv =>
    let name := normalizeName nv.1
    let value := nv.2
    match splitChar '.' name with
    | [single] =>
      match acc with
      | .dict d => .dict (d.set single (.str value))
      | t => t
    | tokens =>
      insertPath acc tokens (if pyIsDigit value then .int (pyInt value) else .str value))
    (.dict .nil)

/-- `parse_local` (src/console/hgdb, lines 617–637): first pass builds the
dot tree, second pass converts dense-integer-keyed dicts into lists. -/
def parse_local (local_vars : List (String × String)) : PyVal :=
  fix_local_str_num (parse_local_tree local_vars)

/-! ## `locate_local_vars` (src/console/hgdb, lines 640–651) -/

/-- A lookup key: `int(var_name)` when the token is all digits, else the
string itself. -/
inductive PyKey where
  | int (n : Nat)
  | str (s : String)
  deriving DecidableEq

/-- Python `==` between a key and a container element (`0 == "0"` is
`False`). -/
def pyKeyEqVal : PyKey → PyVal → Bool
  | .int n, .int m => n = m
  | .str s, .str t => s = t
  | _, _ => false

def PyList.containsKeyVal (key : PyKey) : PyList → Bool
  | .nil => false
  | .cons v rest => pyKeyEqVal key v || rest.containsKeyVal key

/-- Python `key in target`: key membership for dicts, value membership for
lists.  `in` on a string or scalar target either tests substrings or raises
`TypeError`; neither case is reachable on the trees `parse_local` builds
(keys there are never substrings-tested), so both are modelled as `false`. -/
def pyContains (key : PyKey) : PyVal → Bool
  | .dict d => match key with
    | .str s => d.hasKey s
    | .int _ => false
  | .list xs => xs.containsKeyVal key
  | _ => false

/-- `target[key]`, only evaluated after `pyContains` succeeded. -/
def pyIndexVal (key : PyKey) : PyVal → PyVal
  | .dict d => match key with
    | .str s => (d.get? s).getD .none
    | .int _ => .none
  | .list xs => match key with
    | .int n => (xs.get? n).getD .none
    | .str _ => .none
  | _ => .none

def locateGo : List String → PyVal → Option PyVal
  | [], target => some target
  | tok :: rest, target =>
    let key : PyKey := if pyIsDigit tok then .int (pyInt tok) else .str tok
    if pyContains key target then locateGo rest (pyIndexVal key target)
    else Option.none

/-- `locate_local_vars(expr, local_vars)`: `None` for multi-word
expressions, else normalize the name and walk the tree, failing on the
first missing key. -/
def locate_local_vars (expr : String) (local_vars : PyVal) : Option PyVal :=
  if pyWordCount expr > 1 then Option.none
  else locateGo (splitChar '.' (normalizeName expr)) local_vars

/-! ## Console break-event ingestion and commands (src/console/hgdb) -/

/-- One entry of `payload["instances"]` of a server break event, with the
flat `local` variable map the server sends. -/
structure BreakInstance where
  instance_id : Nat
  instance_name : String
  breakpoint_id : Nat
  namespace_id : Int
  bp_type : String
  «local» : List (String × String)
  deriving DecidableEq

/-- The payload of a server-initiated `breakpoint` message. -/
structure BreakPayload where
  filename : String
  line_num : Int
  column_num : Int
  time : Int
  instances : List BreakInstance
  var? : Option String
  deriving DecidableEq

/-- The fields of `DebuggingInformation` (src/console/hgdb, lines 61–91)
that break-event ingestion and the `p` / `set` commands touch.  The
front-end-only fields (`commands`, `file_context_cache`, `formatter`,
`workspace`, `print_help`, the raw `current_breakpoint_resp`, and the
filename maps) are outside the claims and omitted. -/
structure ConsoleInfo where
  current_scope : String
  namespace_id : Int
  current_breakpoint_fn : String
  current_breakpoint_ln : Int
  current_breakpoint_cn : Int
  current_breakpoint_id : Nat
  current_breakpoint_type : String
  local_vars : PyVal
  set_values : List String
  current_instance_index : Nat
  current_time : Int
  target_var : Option String
  deriving DecidableEq

/-- `DebuggingInformation.parse` (src/console/hgdb, lines 93–112): records
filename / line / column / time, resets `current_instance_index` to 0, takes
`instances[0]` (IndexError on an empty list, modelled as `Option.none`),
rebuilds `local_vars` with `parse_local`, and sets scope / namespace /
breakpoint id / type.  The source never touches `set_values` here. -/
def consoleParse (info : ConsoleInfo) (payload : BreakPayload) : Option ConsoleInfo :=
  match payload.instances with
  | [] => Option.none
  | instance0 :: _ =>
    some { info with
      current_breakpoint_fn := payload.filename
      current_breakpoint_ln := payload.line_num
      current_breakpoint_cn := payload.column_num
      current_instance_index := 0
      current_breakpoint_type := instance0.bp_type
      current_breakpoint_id := instance0.breakpoint_id
      current_scope := natRepr instance0.breakpoint_id
      namespace_id := instance0.namespace_id
      local_vars := parse_local instance0.«local»
      current_time := payload.time
      target_var := match payload.var? with
        | some v => some v
        | Option.none => info.target_var }

/-- The cache-resolution step of `PrintCommand.dispatch` (src/console/hgdb,
line 300): `locate_local_vars(expr, local_vars) if expr.strip() not in
set_values else None`.  `some` means the value is printed from the cached
tree; `Option.none` means the expression is forwarded to the server. -/
def printResolveFromCache (info : ConsoleInfo) (expr : String) : Option PyVal :=
  if pyStrip expr ∈ info.set_values then Option.none
  else locate_local_vars expr info.local_vars

/-- A `set-value` request as `HGDBClient.set_value` sends it. -/
structure SetValRequest where
  var_name : String
  value : Nat
  breakpoint_id : Nat
  namespace_id : Int
  deriving DecidableEq

/-- `SetValueCommand.dispatch` (src/console/hgdb, lines 327–346): split the
assignment on `"="`; exactly two parts, a digit-string value, and a
digit-string `current_scope` are required, else the command is rejected
locally with nothing sent.  On a send, the variable joins `set_values` only
when the response status is not `"error"`.  Returns the request sent (if
any) and the new `set_values`. -/
def setValueDispatch (expr : String) (info : ConsoleInfo) (respStatus : String) :
    Option SetValRequest × List String :=
  match splitChar '=' expr with
  | [var0, value0] =>
    let var := pyStrip var0
    let value := pyStrip value0
    if ¬ pyIsDigit value then (Option.none, info.set_values)
    else if ¬ pyIsDigit info.current_scope then (Option.none, info.set_values)
    else
      let req : SetValRequest :=
        ⟨var, pyInt value, pyInt info.current_scope, info.namespace_id⟩
      if respStatus = "error" then (some req, info.set_values)
      else (some req, var :: info.set_values)
  | _ => (Option.none, info.set_values)

/-! ## `index_filenames` (src/console/hgdb, lines 37–58)

The function is parametric in `os.path.basename`, which it treats as a
black box: `bn` below.  Python dicts/sets of filenames are modelled as
functions (only membership, lookup, insert and pop are used; `result.pop`
is only reached when the key is present, so it never raises). -/

section IndexFilenames

variable {α : Type} [DecidableEq α]

/-- The forward map and the conflict set the loop threads. -/
structure FnIndex (α : Type) where
  result : α → Option α
  conflicted : α → Bool

/-- `d[k] = v`. -/
def dinsert (d : α → Option α) (k v : α) : α → Option α :=
  fun x => if x = k then some v else d x

/-- `d.pop(k)`. -/
def dpop (d : α → Option α) (k : α) : α → Option α :=
  fun x => if x = k then Option.none else d x

/-- One iteration of the `for filename in filenames` loop
(`if basename != filename: result[filename] = filename`; then the
conflict check / pop / basename insertion — only `result` changes before
the conflict check, so the intermediate state is written out as
`result1`). -/
def index_step (bn : α → α) (st : FnIndex α) (filename : α) : FnIndex α :=
  let basename := bn filename
  let result1 :=
    if basename ≠ filename then dinsert st.result filename filename else st.result
  if st.conflicted basename then ⟨result1, st.conflicted⟩
  else if (result1 basename).isSome then
    ⟨dpop result1 basename, fun x => x = basename || st.conflicted x⟩
  else ⟨dinsert result1 basename filename, st.conflicted⟩

/-- `index_filenames` up to the `result` / `conflicted` loop (the derived
`shorten` reverse map is not involved in the claims). -/
def index_filenames (bn : α → α) (filenames : List α) : FnIndex α :=
  filenames.foldl (index_step bn) ⟨fun _ => Option.none, fun _ => false⟩

/-- How many files of `p` have basename `b`. -/
def bnCount (bn : α → α) (p : List α) (b : α) : Nat :=
  (p.filter (fun f => bn f = b)).length

/-- The closed form of the forward map after the loop: a unique basename
maps to its file, a shared one is absent, and a full path that is not a
bare basename maps to itself. -/
def resSpec (bn : α → α) (p : List α) (b : α) : Option α :=
  match p.filter (fun f => bn f = b) with
  | [f] => some f
  | [] => if b ∈ p ∧ bn b ≠ b then some b else Option.none
  | _ => Option.none

end IndexFilenames

/-! ## The vscode runtime (src/vscode/src/hgdbRuntime.ts)

JavaScript `Map` objects distinguish entries written with `.set` / read
with `.get` from ordinary properties read with bracket indexing; `JsMap`
keeps the two stores separate so that the source's `_token_callbacks[token]`
(a bracket read) is rendered exactly.  Continuations are identified by
opaque numbers; outbound frames are kept as their serialized text. -/

/-- Replace-or-append on an association list (JS `Map.set` order). -/
def assocSet {ν : Type} (l : List (String × ν)) (k : String) (v : ν) : List (String × ν) :=
  if l.any (fun kv => kv.1 = k) then l.map (fun kv => if kv.1 = k then (k, v) else kv)
  else l ++ [(k, v)]

structure JsMap (ν : Type) where
  entries : List (String × ν)
  props : List (String × ν)
  deriving DecidableEq

/-- `m.set(k, v)`. -/
def JsMap.mapSet {ν : Type} (m : JsMap ν) (k : String) (v : ν) : JsMap ν :=
  { m with entries := assocSet m.entries k v }

/-- `m.delete(k)`. -/
def JsMap.mapDelete {ν : Type} (m : JsMap ν) (k : String) : JsMap ν :=
  { m with entries := m.entries.filter (fun kv => kv.1 ≠ k) }

/-- `m[k]`: bracket indexing reads own properties, never `.set` entries. -/
def JsMap.bracketGet {ν : Type} (m : JsMap ν) (k : String) : Option ν :=
  (m.props.find? (fun kv => kv.1 = k)).map (fun kv => kv.2)

/-- `HGDBRuntime.add_callback` (hgdbRuntime.ts, lines 418–420):
`this._token_callbacks.set(token, callback)`. -/
def add_callback (m : JsMap Nat) (token : String) (callback : Nat) : JsMap Nat :=
  m.mapSet token callback

/-- A parsed incoming frame: `resp.type`, `resp.token`, `resp.status`,
`resp.payload` (payload kept as opaque text). -/
structure InboundResp where
  type? : Option String
  token : Option String
  status : String
  payload : String
  deriving DecidableEq

/-- What one run of the message handler does, observably. -/
inductive HandlerAction where
  | breakEvent (payload : String)
  | invoked (callback : Nat) (status : String) (payload : String)
  | threwTypeError
  | ignored
  deriving DecidableEq

/-- The `connection.on("message", …)` dispatcher (hgdbRuntime.ts, lines
112–128): a `"breakpoint"` type routes to `on_breakpoint` regardless of
token; otherwise, for a truthy token, the code reads
`this._token_callbacks[token]` — a bracket read of a `Map` — and calls the
result.  When that read yields `undefined` the call throws `TypeError`
before reaching the `delete`. -/
def handle_message (callbacks : JsMap Nat) (resp : InboundResp) :
    JsMap Nat × HandlerAction :=
  match resp.type? with
  | some "breakpoint" => (callbacks, .breakEvent resp.payload)
  | _ =>
    match resp.token with
    | some t =>
      if t ≠ "" then
        match callbacks.bracketGet t with
        | some cb => (callbacks.mapDelete t, .invoked cb resp.status resp.payload)
        | Option.none => (callbacks, .threwTypeError)
      else (callbacks, .ignored)
    | Option.none => (callbacks, .ignored)

/-- The runtime state the transport-side operations touch. -/
structure VsState where
  connection : Bool
  connected : Bool
  token_count : Nat
  token_callbacks : JsMap Nat
  sent : List String
  deriving DecidableEq

/-- `HGDBRuntime.send_payload` (hgdbRuntime.ts, lines 330–335): serialize
and, only if `this._connection` is defined, hand the frame to the socket.
There is no queue anywhere in the class: a payload sent before the
connection exists is not recorded. -/
def send_payload (st : VsState) (payload_str : String) : VsState :=
  if st.connection then { st with sent := st.sent ++ [payload_str] } else st

/-- `HGDBRuntime.get_token` (hgdbRuntime.ts, lines 413–416). -/
def get_token (st : VsState) : String × VsState :=
  (natRepr st.token_count, { st with token_count := st.token_count + 1 })

/-- `HGDBRuntime.sendRemoveBreakpoints` (hgdbRuntime.ts, lines 354–365):
takes a token and registers a callback for it — and returns.  No
`send_payload` call appears in its body. -/
def sendRemoveBreakpoints (st : VsState) (filename : String) (callback : Nat) : VsState :=
  let p := get_token st
  { p.2 with token_callbacks := add_callback p.2.token_callbacks p.1 callback }

/-- Node `path.resolve` against a current directory (only the
absolute-or-join distinction matters here). -/
def path_resolve (cwd filename : String) : String :=
  if filename.startsWith "/" then filename else cwd ++ "/" ++ filename

/-- `HGDBRuntime.clearBreakpoints` (hgdbRuntime.ts, lines 245–249). -/
def clearBreakpoints (st : VsState) (cwd filename : String) (callback : Nat) : VsState :=
  sendRemoveBreakpoints st (path_resolve cwd filename) callback

/-- The `payload` object of a `bp-location` request. -/
structure BpLocationPayload where
  filename : String
  line_num : Int
  column_num : Option Int
  deriving DecidableEq

/-- `HGDBRuntime.send_bp_location` (hgdbRuntime.ts, lines 432–441): the
`column_num` field is added only when the argument is truthy
(`if (column_num)`). -/
def send_bp_location_payload (filename : String) (line_num : Int)
    (column_num : Option Int) : BpLocationPayload :=
  { filename := filename
    line_num := line_num
    column_num := match column_num with
      | some c => if c ≠ 0 then some c else Option.none
      | Option.none => Option.none }

/-- The request payload `HGDBRuntime.verifyBreakpoint` (hgdbRuntime.ts,
lines 199–206, 234) produces: `if (!column) { column = 0; }` defaults a
missing or zero column to 0, and the (always-present) number is passed to
`send_bp_location`. -/
def verifyBreakpoint_request (filename : String) (line : Int)
    (column : Option Int) : BpLocationPayload :=
  let c : Int := match column with
    | Option.none => 0
    | some v => if v = 0 then 0 else v
  send_bp_location_payload filename line (some c)

/-! ## `HGDBDebugSession.setBreakPointsRequest` (src/vscode/src/hgdbDebug.ts,
lines 231–258): reporting and committing the verified breakpoints of one
requested line. -/

/-- A verified breakpoint record as the runtime returns it. -/
structure HGDBBreakpoint where
  id : Int
  line_num : Int
  filename : String
  valid : Bool
  column_num : Int
  deriving DecidableEq

/-- A `DebugProtocol.Breakpoint` sent back to the IDE (lines are 1-based on
both sides, so the line/column converters are the identity). -/
structure DapBreakpoint where
  verified : Bool
  line : Int
  column : Option Int
  id : Option Int
  deriving DecidableEq

/-- `new Breakpoint(bp.valid, line, bp.column_num > 0 ? column : undefined)`
with `b.id = bp.id` (hgdbDebug.ts, lines 245–247). -/
def mkReported (bp : HGDBBreakpoint) : DapBreakpoint :=
  { verified := bp.valid
    line := bp.line_num
    column := if bp.column_num > 0 then some bp.column_num else Option.none
    id := some bp.id }

/-- The `for (let i = 0; i < bps.length; i++)` loop (hgdbDebug.ts, lines
243–255): breakpoint `i` is pushed to the response and committed via
`setBreakpoint(bp.id, condition)` iff `i === 0 || (bps.length > 1 &&
bp_entry.column !== undefined)`.  Returns (reported, committed). -/
def reportLoop (total : Nat) (explicitColumn : Bool) (condition : Option String) :
    Nat → List HGDBBreakpoint → List DapBreakpoint × List (Int × Option String)
  | _, [] => ([], [])
  | i, bp :: rest =>
    let r := reportLoop total explicitColumn condition (i + 1) rest
    if i = 0 ∨ (total > 1 ∧ explicitColumn) then
      (mkReported bp :: r.1, (bp.id, condition) :: r.2)
    else r

/-- One `bp_entry` of `setBreakPointsRequest`: an empty verification result
reports a single unverified breakpoint at the requested position; otherwise
the loop above runs.  `explicitColumn` is `bp_entry.column !== undefined`. -/
def setBreakPointsEntry (bps : List HGDBBreakpoint) (requestedLine : Int)
    (requestedColumn : Option Int) (condition : Option String) :
    List DapBreakpoint × List (Int × Option String) :=
  match bps with
  | [] => ([⟨false, requestedLine, requestedColumn, Option.none⟩], [])
  | _ => reportLoop bps.length (requestedColumn ≠ Option.none) condition 0 bps

/-! ## Concrete states used by the evaluation theorems -/

/-- A token registry with one continuation (number 7) registered under
token `"0"` through `add_callback`, i.e. through `Map.set`. -/
def exampleCallbacks : JsMap Nat := add_callback ⟨[], []⟩ "0" 7

/-- The runtime state before the websocket `connect` event:
`this._connection` is still `undefined` and nothing has been sent. -/
def disconnectedState : VsState := ⟨false, false, 0, ⟨[], []⟩, []⟩

/-- A console session in which `set a=…` has succeeded since the last
break: `"a"` is in `set_values`. -/
def exampleConsoleInfo : ConsoleInfo :=
  { current_scope := "0"
    namespace_id := 0
    current_breakpoint_fn := ""
    current_breakpoint_ln := 0
    current_breakpoint_cn := 0
    current_breakpoint_id := 0
    current_breakpoint_type := ""
    local_vars := .dict .nil
    set_values := ["a"]
    current_instance_index := 3
    current_time := 0
    target_var := Option.none }

/-- A subsequent break event whose first instance carries `a = "2"` in its
flat local map. -/
def exampleBreakPayload : BreakPayload :=
  { filename := "/tmp/t.py"
    line_num := 5
    column_num := 0
    time := 10
    instances := [{ instance_id := 1, instance_name := "mod", breakpoint_id := 2,
                    namespace_id := 0, bp_type := "normal", «local» := [("a", "2")] }]
    var? := Option.none }

/-! # Theorems

Helper lemmas first, then the claim theorems (each headed by its claim id). -/

/-! ## Decimal round-trip -/

theorem digitVal_digitChar (n : Nat) (h : n < 10) : digitVal (digitChar n) = n := by
  interval_cases n <;> rfl

theorem pyIntChars_append (xs ys : List Char) :
    pyIntChars (xs ++ ys) = ys.foldl (fun a c => a * 10 + digitVal c) (pyIntChars xs) := by
  simp [pyIntChars, List.foldl_append]

theorem pyIntChars_natToDigitsAux (fuel n : Nat) (h : n < 10 ^ fuel) :
    pyIntChars (natToDigitsAux fuel n) = n := by
  induction fuel generalizing n with
  | zero => simp at h; simp [h, natToDigitsAux, pyIntChars]
  | succ fuel ih =>
    rw [natToDigitsAux]
    by_cases hlt : n < 10
    · simp [hlt, pyIntChars, digitVal_digitChar n hlt]
    · have hdiv : n / 10 < 10 ^ fuel := by
        rw [Nat.div_lt_iff_lt_mul (by omega)]
        calc n < 10 ^ (fuel + 1) := h
          _ = 10 ^ fuel * 10 := by ring
      simp only [hlt, if_false]
      rw [pyIntChars_append, ih (n / 10) hdiv]
      simp [List.foldl, digitVal_digitChar (n % 10) (Nat.mod_lt n (by omega))]
      omega

/-- `int(str(n)) = n`: the decimal rendering round-trips. -/
theorem pyIntChars_natToDigits (n : Nat) : pyIntChars (natToDigits n) = n := by
  have hfuel : n < 10 ^ (n + 1) := by
    calc n < 2 ^ n := Nat.lt_two_pow n
      _ ≤ 10 ^ n := Nat.pow_le_pow_left (by omega) n
      _ ≤ 10 ^ (n + 1) := Nat.pow_le_pow_right (by omega) (by omega)
  exact pyIntChars_natToDigitsAux (n + 1) n hfuel

theorem pyInt_natRepr (n : Nat) : pyInt (natRepr n) = n := by
  simp [pyInt, natRepr, pyIntChars_natToDigits]

/-! ## C1 — token-correlated dispatch -/

/-- C1.  The claim: a frame of type `"breakpoint"` routes to the break-event
handler regardless of token, and a frame carrying a token with a registered
continuation invokes that continuation exactly once with the response's
status and payload, removing the registry entry.  What the code does: the
`"breakpoint"` routing holds, but a continuation registered through
`Map.set` is never found by the bracket read `this._token_callbacks[token]`,
so the handler throws `TypeError` instead of invoking it and the entry
stays registered. -/
theorem handle_message_registered_continuation_not_invoked :
    exampleCallbacks.entries = [("0", 7)]
    ∧ handle_message exampleCallbacks ⟨some "breakpoint", some "0", "success", "bp-payload"⟩
        = (exampleCallbacks, HandlerAction.breakEvent "bp-payload")
    ∧ handle_message exampleCallbacks ⟨some "bp-location", some "0", "success", "resp-payload"⟩
        = (exampleCallbacks, HandlerAction.threwTypeError) :=
  ⟨rfl, rfl, rfl⟩

/-! ## C2 — frame-id packing round-trip -/

/-- C2.  The claim: `get_instance_frame_id (get_frame_id iid sid) = (iid, sid)`
for all `iid < 2^40`, `sid < 2^13`.  What the code does: JS `<<`/`>>`/`|`/`&`
work on 32-bit integers, so the round-trip already fails at
`iid = 2^19 = 524288` (the packed id wraps to 0); it does hold for small
instance ids such as (100, 5). -/
theorem get_frame_id_roundtrip_fails_at_2pow19 :
    get_frame_id 524288 0 = 0
    ∧ get_instance_frame_id (get_frame_id 524288 0) = (0, 0)
    ∧ get_instance_frame_id (get_frame_id 524288 0) ≠ (524288, 0)
    ∧ get_instance_frame_id (get_frame_id 100 5) = (100, 5) :=
  ⟨by decide, by decide, by decide, by decide⟩

/-! ## C3 — request queue -/

/-- C3.  The claim: a payload passed to `send` before the transport is
connected is enqueued and flushed FIFO on connect; afterwards sends go
directly to the socket.  What the code does: `send_payload` checks
`this._connection` and otherwise returns — the state is completely
unchanged (the class has no queue), so the payload is lost; after the
connection exists the frame goes straight to the socket. -/
theorem send_payload_before_connection_drops :
    send_payload disconnectedState "frame-json" = disconnectedState
    ∧ (send_payload { disconnectedState with connection := true } "frame-json").sent
        = ["frame-json"] :=
  ⟨rfl, rfl⟩

/-! ## C4 — `set_values` across break events -/

/-- C4.  The claim: ingesting a break event clears `set_values`, so a
variable overridden with `set` before the break is again resolvable from
the cached local-variable tree.  What the code does:
`DebuggingInformation.parse` never touches `set_values`, so after the break
`"a"` is still in it and `PrintCommand.dispatch` still forwards `p a` to
the server (`printResolveFromCache` is `none`) even though the freshly
parsed tree holds `a = 2`. -/
theorem consoleParse_preserves_set_values :
    (consoleParse exampleConsoleInfo exampleBreakPayload).map (fun i => i.set_values)
      = some ["a"]
    ∧ (consoleParse exampleConsoleInfo exampleBreakPayload).map
        (fun i => printResolveFromCache i "a") = some Option.none
    ∧ (consoleParse exampleConsoleInfo exampleBreakPayload).map
        (fun i => locate_local_vars "a" i.local_vars) = some (some (.int 2)) :=
  ⟨rfl, rfl, rfl⟩

/-! ## C5 — clear-by-file request -/

/-- C5.  The claim: `clearBreakpoints(filename)` resolves the filename and
sends one `breakpoint`/`remove` request carrying it.  What the code does:
`sendRemoveBreakpoints` takes a token and registers a callback but its body
contains no `send_payload` call, so no frame whatsoever reaches the
socket. -/
theorem clearBreakpoints_sends_no_frame (st : VsState) (cwd filename : String)
    (callback : Nat) :
    (clearBreakpoints st cwd filename callback).sent = st.sent := rfl

/-! ## C10 — omitted vs zero column in `verifyBreakpoint` -/

/-- C10.  An omitted requested column and a requested column of 0 produce
identical `bp-location` payloads, and the `column_num` field is present in
the payload iff the requested column is nonzero: `verifyBreakpoint`
defaults a falsy column to 0 and `send_bp_location` adds the field only
when the column is truthy. -/
theorem verifyBreakpoint_column_zero_eq_omitted (filename : String) (line : Int) :
    verifyBreakpoint_request filename line Option.none
      = verifyBreakpoint_request filename line (some 0)
    ∧ (verifyBreakpoint_request filename line Option.none).column_num = Option.none
    ∧ ∀ c : Int,
        ((verifyBreakpoint_request filename line (some c)).column_num ≠ Option.none ↔ c ≠ 0) := by
  refine ⟨rfl, rfl, fun c => ?_⟩
  by_cases hc : c = 0 <;>
    simp [verifyBreakpoint_request, send_bp_location_payload, hc]

/-! ## C9 — multiple verified ids for one requested line -/

/-- Without an explicit column the loop's condition `i === 0 || …` is false
for every later index: nothing after the first breakpoint is reported. -/
theorem reportLoop_tail_skipped (total : Nat) (cond : Option String)
    (bps : List HGDBBreakpoint) :
    ∀ i, i ≠ 0 → reportLoop total false cond i bps = ([], []) := by
  induction bps with
  | nil => intro i h; rfl
  | cons bp rest ih =>
    intro i h
    rw [reportLoop]
    rw [if_neg (by simp [h])]
    exact ih (i + 1) (by omega)

/-- With an explicit column and more than one id, the condition holds at
every index: every breakpoint is reported and committed. -/
theorem reportLoop_reports_all (total : Nat) (cond : Option String) (h : 1 < total) :
    ∀ (bps : List HGDBBreakpoint) (i : Nat),
      reportLoop total true cond i bps
        = (bps.map mkReported, bps.map fun b => (b.id, cond)) := by
  intro bps
  induction bps with
  | nil => intro i; rfl
  | cons bp rest ih =>
    intro i
    rw [reportLoop]
    rw [if_pos (Or.inr ⟨h, rfl⟩)]
    rw [ih (i + 1)]
    simp [List.map]

/-- C9.  When verification returns at least two ids: with no explicit
column exactly the first returned breakpoint is reported and committed;
with an explicit column all returned ids are reported and committed. -/
theorem setBreakPointsEntry_multi_report_policy (bp bp2 : HGDBBreakpoint)
    (rest : List HGDBBreakpoint) (line colVal : Int) (cond : Option String) :
    setBreakPointsEntry (bp :: bp2 :: rest) line Option.none cond
      = ([mkReported bp], [(bp.id, cond)])
    ∧ setBreakPointsEntry (bp :: bp2 :: rest) line (some colVal) cond
      = ((bp :: bp2 :: rest).map mkReported,
         (bp :: bp2 :: rest).map fun b => (b.id, cond)) := by
  constructor
  · show reportLoop _ _ cond 0 _ = _
    rw [reportLoop]
    have h0 : (0 : Nat) = 0 ∨ ((bp :: bp2 :: rest).length > 1 ∧ (decide (Option.none ≠ (Option.none : Option Int))) = true) :=
      Or.inl rfl
    simp only [if_pos h0]
    rw [show (decide (Option.none ≠ (Option.none : Option Int))) = false by decide]
    rw [reportLoop_tail_skipped _ cond (bp2 :: rest) 1 (by omega)]
    simp
  · show reportLoop _ _ cond 0 _ = _
    rw [show (decide (some colVal ≠ (Option.none : Option Int))) = true by simp]
    exact reportLoop_reports_all _ cond (by simp) _ 0

/-! ## C6 — variable tree normalization -/

theorem pyListInduction {P : PyList → Prop} (xs : PyList)
    (hnil : P .nil) (hcons : ∀ v rest, P rest → P (.cons v rest)) : P xs :=
  match xs with
  | .nil => hnil
  | .cons v rest => hcons v rest (pyListInduction rest hnil hcons)

theorem pyDictInduction {P : PyDict → Prop} (d : PyDict)
    (hnil : P .nil) (hcons : ∀ k v rest, P rest → P (.cons k v rest)) : P d :=
  match d with
  | .nil => hnil
  | .cons k v rest => hcons k v rest (pyDictInduction rest hnil hcons)

theorem natRepr_injective (a b : Nat) (h : natRepr a = natRepr b) : a = b := by
  have := pyInt_natRepr a
  rw [h, pyInt_natRepr] at this
  omega

theorem PyList.length_set (xs : PyList) : ∀ i v, (xs.set i v).length = xs.length := by
  induction xs using pyListInduction with
  | hnil => intro i v; rfl
  | hcons w rest ih =>
    intro i v
    cases i with
    | zero => rfl
    | succ i => simp only [PyList.set, PyList.length, ih i v]

theorem PyList.get?_set (xs : PyList) :
    ∀ i v j, (xs.set i v).get? j = if i = j ∧ j < xs.length then some v else xs.get? j := by
  induction xs using pyListInduction with
  | hnil =>
    intro i v j
    rw [if_neg (by simp only [PyList.length]; omega)]
    rfl
  | hcons w rest ih =>
    intro i v j
    cases i with
    | zero =>
      cases j with
      | zero =>
        rw [PyList.set, PyList.get?,
          if_pos ⟨rfl, by simp only [PyList.length]; omega⟩]
      | succ j => rw [PyList.set, PyList.get?, PyList.get?, if_neg (by omega)]
    | succ i =>
      cases j with
      | zero => rw [PyList.set, PyList.get?, PyList.get?, if_neg (by omega)]
      | succ j =>
        rw [PyList.set, PyList.get?, PyList.get?, ih i v j]
        by_cases hij : i = j ∧ j < rest.length
        · rw [if_pos hij, if_pos (by simp only [PyList.length]; omega)]
        · rw [if_neg hij, if_neg (by simp only [PyList.length]; omega)]

theorem PyList.get?_eq_none_of_le (xs : PyList) :
    ∀ j, xs.length ≤ j → xs.get? j = Option.none := by
  induction xs using pyListInduction with
  | hnil => intro j h; rfl
  | hcons w rest ih =>
    intro j h
    cases j with
    | zero => simp only [PyList.length] at h; omega
    | succ j => exact ih j (by simp only [PyList.length] at h; omega)

theorem PyList.length_placeFix (d : PyDict) :
    ∀ acc, (placeFix acc d).length = acc.length := by
  induction d using pyDictInduction with
  | hnil => intro acc; rfl
  | hcons k v rest ih =>
    intro acc
    rw [placeFix, ih, PyList.length_set]

/-- Elementwise behaviour of the write loop: position `j` of the result
holds the normalized value of the last entry whose key parses to `j`
(in range), and is untouched otherwise. -/
theorem placeFix_get? (d : PyDict) :
    ∀ (acc : PyList) (j : Nat),
      (placeFix acc d).get? j
        = match findLastVal d j with
          | some v => if j < acc.length then some (fix_local_str_num v) else acc.get? j
          | Option.none => acc.get? j := by
  induction d using pyDictInduction with
  | hnil => intro acc j; rfl
  | hcons k v rest ih =>
    intro acc j
    rw [placeFix, ih, findLastVal]
    cases hrest : findLastVal rest j with
    | some w =>
      dsimp only
      rw [PyList.length_set]
      by_cases hj : j < acc.length
      · rw [if_pos hj, if_pos hj]
      · rw [if_neg hj, if_neg hj]
        rw [PyList.get?_eq_none_of_le (acc.set (pyInt k) (fix_local_str_num v)) j
            (by rw [PyList.length_set]; omega),
          PyList.get?_eq_none_of_le acc j (by omega)]
    | none =>
      rw [PyList.get?_set]
      by_cases hk : pyInt k = j
      · rw [if_pos hk]
        dsimp only
        by_cases hj : j < acc.length
        · rw [if_pos ⟨hk, hj⟩, if_pos hj]
        · rw [if_neg (fun hcon => hj hcon.2), if_neg hj]
      · rw [if_neg hk]
        dsimp only
        rw [if_neg (fun hcon => hk hcon.1)]

theorem placeFix_get?_some (d : PyDict) (acc : PyList) (j : Nat) (v : PyVal)
    (h : findLastVal d j = some v) :
    (placeFix acc d).get? j
      = if j < acc.length then some (fix_local_str_num v) else acc.get? j := by
  rw [placeFix_get?, h]

theorem placeFix_get?_none (d : PyDict) (acc : PyList) (j : Nat)
    (h : findLastVal d j = Option.none) :
    (placeFix acc d).get? j = acc.get? j := by
  rw [placeFix_get?, h]

theorem findLastVal_eq_none (d : PyDict) : ∀ j : Nat,
    (∀ k, k ∈ keysOf d → pyInt k ≠ j) → findLastVal d j = Option.none := by
  induction d using pyDictInduction with
  | hnil => intro j h; rfl
  | hcons k v rest ih =>
    intro j h
    rw [findLastVal, ih j (fun k' hk' => h k' (List.mem_cons_of_mem _ hk'))]
    rw [if_neg (h k (List.mem_cons_self k _))]

theorem hasKey_iff_mem (d : PyDict) : ∀ k : String,
    d.hasKey k = true ↔ k ∈ keysOf d := by
  induction d using pyDictInduction with
  | hnil => intro k; simp [PyDict.hasKey, keysOf]
  | hcons k' v rest ih =>
    intro k
    rw [PyDict.hasKey, keysOf]
    simp only [Bool.or_eq_true, decide_eq_true_eq, ih k, List.mem_cons]
    constructor
    · rintro (h | h)
      · exact Or.inl h.symm
      · exact Or.inr h
    · rintro (h | h)
      · exact Or.inl h.symm
      · exact Or.inr h

theorem get?_isSome_of_hasKey (d : PyDict) : ∀ k : String,
    d.hasKey k = true → ∃ v, d.get? k = some v := by
  induction d using pyDictInduction with
  | hnil => intro k h; simp [PyDict.hasKey] at h
  | hcons k' v rest ih =>
    intro k h
    rw [PyDict.get?]
    by_cases hk : k' = k
    · exact ⟨v, by rw [if_pos hk]⟩
    · rw [if_neg hk]
      apply ih
      rw [PyDict.hasKey] at h
      simpa [hk] using h

/-- When the keys of `d` are pairwise distinct and, on them, parsing to `j`
is the same as being the rendering of `j`, the last write at position `j`
is the dict's value at the key `str(j)`. -/
theorem findLastVal_eq_get? (d : PyDict) : ∀ j : Nat,
    (keysOf d).Nodup →
    (∀ k, k ∈ keysOf d → (pyInt k = j ↔ k = natRepr j)) →
    findLastVal d j = d.get? (natRepr j) := by
  induction d using pyDictInduction with
  | hnil => intro j _ _; rfl
  | hcons k v rest ih =>
    intro j hnd hiff
    have hndcons := List.nodup_cons.mp (by simpa [keysOf] using hnd)
    have hiffr : ∀ k', k' ∈ keysOf rest → (pyInt k' = j ↔ k' = natRepr j) :=
      fun k' hk' => hiff k' (List.mem_cons_of_mem _ hk')
    rw [findLastVal, PyDict.get?]
    by_cases hk : k = natRepr j
    · have hrestnone : findLastVal rest j = Option.none := by
        apply findLastVal_eq_none
        intro k' hk' hpk'
        have hkj : k' = natRepr j := (hiffr k' hk').mp hpk'
        exact hndcons.1 (by rwa [hk, ← hkj])
      rw [hrestnone, if_pos ((hiff k (List.mem_cons_self k _)).mpr hk), if_pos hk]
    · rw [if_neg hk, ih j hndcons.2 hiffr]
      cases hg : rest.get? (natRepr j) with
      | some w => rfl
      | none =>
        rw [if_neg (fun hpk => hk ((hiff k (List.mem_cons_self k _)).mp hpk))]

theorem PyList.length_replicateNone (n : Nat) : (PyList.replicateNone n).length = n := by
  induction n with
  | zero => rfl
  | succ n ih => simp only [PyList.replicateNone, PyList.length, ih]; omega

theorem PyList.length_ofList (l : List PyVal) : (PyList.ofList l).length = l.length := by
  induction l with
  | nil => rfl
  | cons v rest ih => simp only [PyList.ofList, PyList.length, ih, List.length_cons]; omega

theorem PyList.get?_ofList (l : List PyVal) : ∀ j, (PyList.ofList l).get? j = l[j]? := by
  induction l with
  | nil => intro j; simp [PyList.ofList, PyList.get?]
  | cons v rest ih =>
    intro j
    cases j with
    | zero => simp [PyList.ofList, PyList.get?]
    | succ j => simp only [PyList.ofList, PyList.get?, ih j, List.getElem?_cons_succ]

theorem PyList.ext_get? (xs : PyList) :
    ∀ ys : PyList, xs.length = ys.length → (∀ j, xs.get? j = ys.get? j) → xs = ys := by
  induction xs using pyListInduction with
  | hnil =>
    intro ys hlen hget
    cases ys with
    | nil => rfl
    | cons w rest => simp only [PyList.length] at hlen; omega
  | hcons v rest ih =>
    intro ys hlen hget
    cases ys with
    | nil => simp only [PyList.length] at hlen; omega
    | cons w rest2 =>
      have h0 := hget 0
      simp only [PyList.get?, Option.some.injEq] at h0
      rw [h0, ih rest2 (by simp only [PyList.length] at hlen; omega)
        (fun j => hget (j + 1))]

theorem allCanonical_of_perm (d : PyDict)
    (hperm : (keysOf d).Perm ((List.range d.length).map natRepr)) :
    allCanonical d = true := by
  rw [allCanonical, List.all_eq_true]
  intro i hi
  rw [hasKey_iff_mem, hperm.mem_iff]
  exact List.mem_map_of_mem natRepr hi

/-- The general array-conversion rule: a dict node whose keys are exactly
the decimal strings `"0" … "n-1"` — in any insertion order — becomes the
ordered sequence whose `i`-th element is the normalized value stored under
the key `str(i)`. -/
theorem fix_dict_of_perm (d : PyDict)
    (hperm : (keysOf d).Perm ((List.range d.length).map natRepr)) :
    fix_local_str_num (.dict d)
      = .list (PyList.ofList ((List.range d.length).map
          (fun i => fix_local_str_num ((d.get? (natRepr i)).getD PyVal.none)))) := by
  have hinj : Function.Injective natRepr := fun a b h => natRepr_injective a b h
  have hcanonnd : ((List.range d.length).map natRepr).Nodup :=
    (List.nodup_range d.length).map hinj
  have hnd : (keysOf d).Nodup := hperm.nodup_iff.mpr hcanonnd
  have hmemkeys : ∀ k, k ∈ keysOf d → ∃ m, m < d.length ∧ k = natRepr m := by
    intro k hk
    have := hperm.mem_iff.mp hk
    obtain ⟨m, hm, rfl⟩ := List.mem_map.mp this
    exact ⟨m, List.mem_range.mp hm, rfl⟩
  have hiff : ∀ j k, k ∈ keysOf d → (pyInt k = j ↔ k = natRepr j) := by
    intro j k hk
    obtain ⟨m, hm, rfl⟩ := hmemkeys k hk
    rw [pyInt_natRepr]
    constructor
    · rintro rfl; rfl
    · intro h; exact natRepr_injective m j h
  rw [show fix_local_str_num (.dict d)
      = if allCanonical d then
          .list (placeFix (PyList.replicateNone d.length) d)
        else .dict (fixEntries d) from rfl]
  rw [if_pos (allCanonical_of_perm d hperm)]
  refine congrArg PyVal.list (PyList.ext_get? _ _ ?_ ?_)
  · rw [PyList.length_placeFix, PyList.length_replicateNone, PyList.length_ofList,
      List.length_map, List.length_range]
  · intro j
    rw [PyList.get?_ofList]
    by_cases hj : j < d.length
    · have hhas : d.hasKey (natRepr j) = true := by
        rw [hasKey_iff_mem, hperm.mem_iff]
        exact List.mem_map_of_mem natRepr (List.mem_range.mpr hj)
      obtain ⟨v, hv⟩ := get?_isSome_of_hasKey d (natRepr j) hhas
      have hfl : findLastVal d j = some v := by
        rw [findLastVal_eq_get? d j hnd (hiff j)]; exact hv
      rw [placeFix_get?_some d _ j v hfl]
      rw [if_pos (by rw [PyList.length_replicateNone]; omega)]
      rw [List.getElem?_map, List.getElem?_range hj]
      simp [hv]
    · have hrhs : ((List.range d.length).map
          (fun i => fix_local_str_num ((d.get? (natRepr i)).getD PyVal.none)))[j]?
          = Option.none := by
        apply List.getElem?_eq_none
        rw [List.length_map, List.length_range]; omega
      rw [hrhs]
      have hacc : (PyList.replicateNone d.length).get? j = Option.none :=
        PyList.get?_eq_none_of_le _ j (by rw [PyList.length_replicateNone]; omega)
      cases hfl : findLastVal d j with
      | some v =>
        rw [placeFix_get?_some d _ j v hfl,
          if_neg (by rw [PyList.length_replicateNone]; omega)]
        exact hacc
      | none =>
        rw [placeFix_get?_none d _ j hfl]
        exact hacc

/-- C6.  Array normalization: the S6 flat input
`{"a[0][0]": "1", "a[0][1]": "2"}` parses into a tree where `a` is an
ordered array of arrays with integer leaves `a[0][0] = 1`, `a[0][1] = 2`;
a dense dict whose keys arrive out of order (`{"1": "9", "0": "7"}`) is
ordered by index, not by insertion; and in general `fix_local_str_num`
converts every dict node whose keys are exactly the decimal strings
`"0" … "n-1"`, in any order, into the ordered sequence whose `i`-th element
is the normalized value stored under the key `str(i)`. -/
theorem parse_local_array_normalization :
    parse_local [("a[0][0]", "1"), ("a[0][1]", "2")]
      = .dict (.cons "a"
          (.list (.cons (.list (.cons (.int 1) (.cons (.int 2) .nil))) .nil)) .nil)
    ∧ fix_local_str_num (.dict (.cons "1" (.str "9") (.cons "0" (.str "7") .nil)))
      = .list (.cons (.int 7) (.cons (.int 9) .nil))
    ∧ ∀ d : PyDict,
        (keysOf d).Perm ((List.range d.length).map natRepr) →
        fix_local_str_num (.dict d)
          = .list (PyList.ofList ((List.range d.length).map
              (fun i => fix_local_str_num ((d.get? (natRepr i)).getD PyVal.none)))) :=
  ⟨rfl, rfl, fix_dict_of_perm⟩

/-! ## C7 — filename index: basename shortcuts -/

section C7Proofs
variable {α : Type} [DecidableEq α]

theorem index_filenames_append (bn : α → α) (p : List α) (g : α) :
    index_filenames bn (p ++ [g]) = index_step bn (index_filenames bn p) g := by
  simp [index_filenames, List.foldl_append]

theorem bnCount_append (bn : α → α) (p : List α) (g b : α) :
    bnCount bn (p ++ [g]) b = bnCount bn p b + if bn g = b then 1 else 0 := by
  by_cases h : bn g = b <;> simp [bnCount, List.filter_append, List.filter, h]

theorem no_basename_of_not_fixed (bn : α → α) (hbn : ∀ x, bn (bn x) = bn x)
    (b : α) (hb : bn b ≠ b) (l : List α) :
    l.filter (fun f => bn f = b) = [] := by
  rw [List.filter_eq_nil_iff]
  intro f hf
  simp only [decide_eq_true_eq]
  intro hfb
  exact hb (by conv_lhs => rw [← hfb, hbn, hfb])

theorem resSpec_append_other (bn : α → α) (p : List α) (g b : α)
    (hne : b ≠ g) (hgb : bn g ≠ b) :
    resSpec bn (p ++ [g]) b = resSpec bn p b := by
  have hfil : (p ++ [g]).filter (fun f => bn f = b) = p.filter (fun f => bn f = b) := by
    simp [List.filter_append, List.filter, hgb]
  unfold resSpec
  rw [hfil]
  cases p.filter (fun f => bn f = b) with
  | nil => simp [hne]
  | cons f rest => cases rest <;> rfl

theorem resSpec_basename (bn : α → α) (p : List α) (b : α) (hb : bn b = b) :
    resSpec bn p b = (match p.filter (fun f => bn f = b) with
      | [f] => some f
      | _ => Option.none) := by
  unfold resSpec
  cases hf : p.filter (fun f => bn f = b) with
  | nil => simp [hb]
  | cons f rest => cases rest <;> rfl



theorem resSpec_none_of_two (bn : α → α) (p : List α) (b : α) (hb : bn b = b)
    (h2 : 2 ≤ bnCount bn p b) : resSpec bn p b = Option.none := by
  unfold resSpec
  cases hf : p.filter (fun f => bn f = b) with
  | nil => rw [bnCount, hf] at h2; simp at h2
  | cons f rest =>
    cases rest with
    | nil => rw [bnCount, hf] at h2; simp at h2
    | cons f2 rest2 => rfl

theorem resSpec_single (bn : α → α) (p : List α) (b f : α)
    (hf : p.filter (fun f' => bn f' = b) = [f]) : resSpec bn p b = some f := by
  unfold resSpec
  rw [hf]

theorem resSpec_self (bn : α → α) (hbn : ∀ x, bn (bn x) = bn x) (l : List α) (g : α)
    (hg : bn g ≠ g) (hmem : g ∈ l) : resSpec bn l g = some g := by
  unfold resSpec
  rw [no_basename_of_not_fixed bn hbn g hg l]
  simp [hmem, hg]


theorem index_step_characterization (bn : α → α) (hbn : ∀ x, bn (bn x) = bn x)
    (p : List α) (g : α) (S : FnIndex α)
    (ihc : ∀ b, S.conflicted b = decide (2 ≤ bnCount bn p b))
    (ihr : ∀ b, S.result b = resSpec bn p b) :
    (∀ b, (index_step bn S g).conflicted b = decide (2 ≤ bnCount bn (p ++ [g]) b))
    ∧ (∀ b, (index_step bn S g).result b = resSpec bn (p ++ [g]) b) := by
  have hBfix : bn (bn g) = bn g := hbn g
  -- the intermediate result map after the full-path insertion
  set R1 : α → Option α :=
    if bn g ≠ g then dinsert S.result g g else S.result with hR1
  have hR1B : R1 (bn g) = S.result (bn g) := by
    rw [hR1]
    by_cases hgg : bn g = g
    · simp [hgg]
    · simp only [if_pos hgg, dinsert]
      rw [if_neg hgg]
  have hR1other : ∀ b, b ≠ g → R1 b = S.result b := by
    intro b hb
    rw [hR1]
    by_cases hgg : bn g = g
    · simp [hgg]
    · simp only [if_pos hgg, dinsert]
      rw [if_neg hb]
  have hR1g : bn g ≠ g → R1 g = some g := by
    intro hgg
    rw [hR1]
    simp only [if_pos hgg, dinsert]
    simp
  -- the filter over the extended list at the key bn g
  have hfilB : (p ++ [g]).filter (fun f => bn f = bn g)
      = p.filter (fun f => bn f = bn g) ++ [g] := by
    simp [List.filter_append, List.filter]
  by_cases hA : 2 ≤ bnCount bn p (bn g)
  · -- the basename is already conflicted: the step only adds the
    -- full-path entry
    have hc : S.conflicted (bn g) = true := by rw [ihc]; exact decide_eq_true hA
    have hstep : index_step bn S g = ⟨R1, S.conflicted⟩ := by
      simp only [index_step, hc, eq_self_iff_true, if_true]
    rw [hstep]
    constructor
    · intro b
      show S.conflicted b = _
      rw [ihc b, bnCount_append]
      by_cases hb : bn g = b
      · rw [if_pos hb, ← hb]
        have h1 : 2 ≤ bnCount bn p (bn g) := hA
        simp [h1, Nat.le_add_right_of_le h1]
      · rw [if_neg hb, Nat.add_zero]
    · intro b
      show R1 b = _
      by_cases hbg : b = g
      · subst hbg
        by_cases hgg : bn b = b
        · -- b = g and bn g = g: the key is its own basename, already
          -- conflicted on both sides
          rw [hR1]
          simp only [hgg, ne_eq, not_true_eq_false, if_false]
          have hA' : 2 ≤ bnCount bn p b := by rwa [hgg] at hA
          rw [ihr b, resSpec_none_of_two bn p b hgg hA']
          rw [resSpec_none_of_two bn (p ++ [b]) b hgg
            (by rw [bnCount_append, if_pos hgg]; omega)]
        · rw [hR1g hgg, resSpec_self bn hbn (p ++ [b]) b hgg (by simp)]
      · rw [hR1other b hbg]
        by_cases hbB : b = bn g
        · subst hbB
          rw [ihr, resSpec_none_of_two bn p (bn g) hBfix hA]
          rw [resSpec_none_of_two bn (p ++ [g]) (bn g) hBfix
            (by rw [bnCount_append, if_pos rfl]; omega)]
        · rw [ihr, resSpec_append_other bn p g b hbg (fun h => hbB h.symm)]
  · -- not yet conflicted: at most one prior file has this basename
    have hc : S.conflicted (bn g) = false := by
      rw [ihc]; exact decide_eq_false hA
    have hSB : S.result (bn g) = resSpec bn p (bn g) := ihr (bn g)
    cases hf : p.filter (fun f => bn f = bn g) with
    | cons f rest =>
      cases rest with
      | cons f2 rest2 =>
        exfalso; apply hA; rw [bnCount, hf]; simp
      | nil =>
        -- exactly one prior file f with this basename: pop + conflict
        have hcnt1 : bnCount bn p (bn g) = 1 := by rw [bnCount, hf]; rfl
        have hsome : (R1 (bn g)).isSome = true := by
          rw [hR1B, hSB, resSpec_single bn p (bn g) f hf]; rfl
        have hstep : index_step bn S g
            = ⟨dpop R1 (bn g), fun x => x = bn g || S.conflicted x⟩ := by
          simp only [index_step, hc, Bool.false_eq_true, if_false]
          rw [← hR1, hsome]
          rw [if_pos rfl]
        rw [hstep]
        constructor
        · intro b
          show (decide (b = bn g) || S.conflicted b) = _
          by_cases hbB : b = bn g
          · subst hbB
            rw [bnCount_append, if_pos rfl, hcnt1]
            simp
          · rw [ihc b, bnCount_append, if_neg (fun h => hbB h.symm), Nat.add_zero]
            simp [hbB]
        · intro b
          show dpop R1 (bn g) b = _
          by_cases hbB : b = bn g
          · subst hbB
            rw [dpop]
            rw [if_pos rfl]
            rw [resSpec_none_of_two bn (p ++ [g]) (bn g) hBfix
              (by rw [bnCount_append, if_pos rfl, hcnt1])]
          · rw [dpop]
            rw [if_neg hbB]
            by_cases hbg : b = g
            · subst hbg
              have hgg : bn b ≠ b := fun h => hbB h.symm
              rw [hR1g hgg, resSpec_self bn hbn (p ++ [b]) b hgg (by simp)]
            · rw [hR1other b hbg, ihr,
                resSpec_append_other bn p g b hbg (fun h => hbB h.symm)]
    | nil =>
      -- no prior file with this basename: plain basename insertion
      have hcnt0 : bnCount bn p (bn g) = 0 := by rw [bnCount, hf]; rfl
      have hnone : (R1 (bn g)).isSome = false := by
        rw [hR1B, hSB, resSpec_basename bn p (bn g) hBfix, hf]; rfl
      have hstep : index_step bn S g = ⟨dinsert R1 (bn g) g, S.conflicted⟩ := by
        simp only [index_step, hc, Bool.false_eq_true, if_false]
        rw [← hR1, hnone]
        rw [if_neg (by simp)]
      rw [hstep]
      constructor
      · intro b
        show S.conflicted b = _
        rw [ihc b, bnCount_append]
        by_cases hbB : bn g = b
        · rw [if_pos hbB, ← hbB, hcnt0]
          decide
        · rw [if_neg hbB, Nat.add_zero]
      · intro b
        show dinsert R1 (bn g) g b = _
        by_cases hbB : b = bn g
        · subst hbB
          rw [dinsert]
          rw [if_pos rfl]
          rw [resSpec_single bn (p ++ [g]) (bn g) g (by rw [hfilB, hf]; rfl)]
        · rw [dinsert]
          rw [if_neg hbB]
          by_cases hbg : b = g
          · subst hbg
            have hgg : bn b ≠ b := fun h => hbB h.symm
            rw [hR1g hgg, resSpec_self bn hbn (p ++ [b]) b hgg (by simp)]
          · rw [hR1other b hbg, ihr,
              resSpec_append_other bn p g b hbg (fun h => hbB h.symm)]

theorem index_characterization (bn : α → α) (hbn : ∀ x, bn (bn x) = bn x) (p : List α) :
    (∀ b, (index_filenames bn p).conflicted b = decide (2 ≤ bnCount bn p b))
    ∧ (∀ b, (index_filenames bn p).result b = resSpec bn p b) := by
  induction p using List.reverseRecOn with
  | nil =>
    constructor
    · intro b; simp [index_filenames, bnCount]
    · intro b; simp [index_filenames, resSpec, List.filter]
  | append_singleton p g ih =>
    rw [index_filenames_append]
    exact index_step_characterization bn hbn p g _ ih.1 ih.2

theorem index_filenames_basename_shortcut (bn : α → α) (fs : List α) (b : α)
    (hbn : ∀ x, bn (bn x) = bn x) (hnd : fs.Nodup) :
    (2 ≤ (fs.filter (fun f => bn f = b)).length →
      (index_filenames bn fs).result b = Option.none)
    ∧ (∀ f, fs.filter (fun f' => bn f' = b) = [f] →
      (index_filenames bn fs).result b = some f) := by
  have h := (index_characterization bn hbn fs).2 b
  constructor
  · intro h2
    rw [h]
    obtain ⟨f, hfmem⟩ : ∃ f, f ∈ fs.filter (fun f => bn f = b) := by
      cases hfil : fs.filter (fun f => bn f = b) with
      | nil => rw [hfil] at h2; simp at h2
      | cons f r => exact ⟨f, hfil ▸ List.mem_cons_self f r⟩
    have hfb : bn f = b := by simpa using (List.mem_filter.mp hfmem).2
    have hb : bn b = b := by rw [← hfb, hbn, hfb]
    exact resSpec_none_of_two bn fs b hb h2
  · intro f hf
    rw [h]
    exact resSpec_single bn fs b f hf

theorem index_filenames_basename_shortcut_witness :
    (index_filenames (fun x : Fin 4 => if x = 1 then 0 else x) [1, 3]).result 0 = some 1
    ∧ (index_filenames (fun x : Fin 4 => if x = 1 then 0 else x) [1, 2, 0]).result 0
        = Option.none :=
  ⟨(index_filenames_basename_shortcut _ _ _ (by decide) (by decide)).2 1 (by decide),
   (index_filenames_basename_shortcut _ _ _ (by decide) (by decide)).1 (by decide)⟩

end C7Proofs

/-! ## C8 — console `set var=value` -/

/-- C8.  `set` rejects locally — sending nothing and leaving `set_values`
unchanged — when the value part is not a digit string or when
`current_scope` is not a digit string; and when a request is sent, the
variable joins `set_values` exactly when the server's reply status is not
`"error"` (i.e. is `"success"`). -/
theorem setValueDispatch_rejects_and_gates (expr : String) (info : ConsoleInfo)
    (respStatus : String) :
    (∀ v w, splitChar '=' expr = [v, w] → pyIsDigit (pyStrip w) = false →
      setValueDispatch expr info respStatus = (Option.none, info.set_values))
    ∧ (pyIsDigit info.current_scope = false →
      setValueDispatch expr info respStatus = (Option.none, info.set_values))
    ∧ (∀ req sv, setValueDispatch expr info respStatus = (some req, sv) →
        (respStatus = "error" → sv = info.set_values)
        ∧ (respStatus ≠ "error" → sv = req.var_name :: info.set_values)) := by
  refine ⟨?_, ?_, ?_⟩
  · intro v w hsplit hw
    unfold setValueDispatch
    rw [hsplit]
    simp [hw]
  · intro hscope
    unfold setValueDispatch
    cases hts : splitChar '=' expr with
    | nil => rfl
    | cons v rest =>
      cases rest with
      | nil => rfl
      | cons w rest2 =>
        cases rest2 with
        | cons x rest3 => rfl
        | nil =>
          by_cases hval : pyIsDigit (pyStrip w) = true
          · simp [hval, hscope]
          · simp [hval]
  · intro req sv hsent
    unfold setValueDispatch at hsent
    cases hts : splitChar '=' expr with
    | nil => rw [hts] at hsent; simp at hsent
    | cons v rest =>
      cases rest with
      | nil => rw [hts] at hsent; simp at hsent
      | cons w rest2 =>
        cases rest2 with
        | cons x rest3 => rw [hts] at hsent; simp at hsent
        | nil =>
          rw [hts] at hsent
          by_cases hval : pyIsDigit (pyStrip w) = true
          · by_cases hscope : pyIsDigit info.current_scope = true
            · simp only [hval, hscope, not_true_eq_false, if_false] at hsent
              constructor
              · intro herr
                rw [if_pos herr] at hsent
                exact (congrArg Prod.snd hsent).symm
              · intro herr
                rw [if_neg herr] at hsent
                have h1 := Option.some.inj (congrArg Prod.fst hsent)
                have h2 := congrArg Prod.snd hsent
                rw [← h1]
                exact h2.symm
            · simp [hval, hscope] at hsent
          · simp [hval] at hsent

end Hgdb
